import Mathlib

/-!
# Verification of the IPFS storage adapter (`ipfs/ipfs.go`)

A shallow embedding of the content-addressable backend of the `oss` storage
abstraction.  The adapter code (`makeFilename`, `ensureDir`, `Get`, `Put`,
`Delete`, `List`, `connectToPeers`, `New`) is translated function by function.

Everything the adapter calls but does not define (the Go standard library,
`go-ipfs-files`, the IPFS core API, multiaddr and peer parsing) is the
environment.  Pure string and path helpers of the standard library are given
executable models; effectful collaborators are fields of the structures `OS`
(acting on a disk state `δ`) and `CoreAPI` (acting on a node state `ε`), so every
general theorem holds for all behaviours of those collaborators.  A small
concrete environment (`Ref`) is used to evaluate the code on explicit inputs.

Go strings are modelled by Lean strings, a Go `error` by `Option GoError`
(`none` is `nil`), a run-time panic by an outer `Option` (`none` is the panic).
-/

namespace Oss

/-! ## Go values -/

/-- Go `error` values, by the classes the adapter can tell apart. -/
inductive GoError where
  | errNotExist
  | errExist
  | errPermission
  | other (msg : String)
  deriving DecidableEq, Repr

deriving instance DecidableEq for Except

/-- Go `os.IsExist`: true only for an error reporting that a file already exists;
false for `nil`. -/
def osIsExist : Option GoError → Bool
  | some .errExist => true
  | _ => false

/-- Go `os.IsNotExist`: true only for an error reporting that a file is absent;
false for `nil`. -/
def osIsNotExist : Option GoError → Bool
  | some .errNotExist => true
  | _ => false

/-- A stream or file content. -/
abbrev Bytes := List UInt8

/-! ## `strings` -/

/-- Splitting a character sequence at every occurrence of `sep`; the result is
never empty. -/
def splitChars (sep : Char) : List Char → List (List Char)
  | [] => [[]]
  | c :: cs =>
    if c = sep then [] :: splitChars sep cs
    else
      match splitChars sep cs with
      | [] => [[c]]
      | seg :: segs => (c :: seg) :: segs

/-- Go `strings.Split(s, sep)` for a one-character separator. -/
def stringsSplit (s : String) (sep : Char) : List String :=
  (splitChars sep s.data).map String.mk

/-- Go `strings.HasPrefix(s, pre)`. -/
def stringsHasPrefix (s pre : String) : Bool :=
  pre.data.isPrefixOf s.data

/-- Go `strings.Join(elems, sep)`. -/
def stringsJoin (elems : List String) (sep : String) : String :=
  sep.intercalate elems

/-! ## `path/filepath` (Unix) -/

/-- One step of `filepath.Clean`: `out` is the stack of components written so
far, last component first. -/
def cleanStep (rooted : Bool) (out : List String) (elem : String) : List String :=
  if elem = "" ∨ elem = "." then out
  else if elem = ".." then
    match out with
    | [] => if rooted then [] else [".."]
    | top :: rest => if top = ".." then ".." :: out else rest
  else elem :: out

/-- Go `filepath.Clean`: drops empty and `.` components, resolves `..` against
the preceding component, keeps a leading `/`, and turns an empty result into
`.`. -/
def filepathClean (path : String) : String :=
  if path = "" then "."
  else
    let rooted := stringsHasPrefix path "/"
    let out := (stringsSplit path '/').foldl (cleanStep rooted) []
    let body := stringsJoin out.reverse "/"
    if rooted then "/" ++ body
    else if body = "" then "." else body

/-- Go `filepath.Join`: the elements from the first non-empty one on, joined by
`/` and cleaned; the empty string when every element is empty. -/
def filepathJoin (elem : List String) : String :=
  match elem.dropWhile (fun e => e == "") with
  | [] => ""
  | rest => filepathClean (stringsJoin rest "/")

/-! ## Adapter data -/

/-- The adapter configuration (`Config`); the opaque datastore and address
documents are kept as optional raw strings. -/
structure Config where
  RootPath : String
  Networking : Bool := false
  EncryptedConnnections : Bool := false
  Peers : List String := []
  NodeType : String := ""
  TempDir : String
  DataStore : Option String := none
  Addresses : Option String := none
  PrivateNetwork : Bool := false
  deriving DecidableEq, Repr

/-- The handle `oss.Object` returned by `Put` and `List`.  The back-reference to
the adapter (`StorageInterface`) is not represented. -/
structure Object where
  Path : String
  Name : String
  LastModified : Nat
  deriving DecidableEq, Repr

/-- A file-system object as `os` sees it. -/
inductive FsNode where
  | file (data : Bytes)
  | dir
  deriving DecidableEq, Repr

/-- Go `os.FileInfo`, as far as the adapter's collaborators look at it. -/
structure FileInfo where
  IsDir : Bool
  Size : Nat
  deriving DecidableEq, Repr

/-- An open `*os.File`: the name it was opened under and what it reads. -/
structure OsFile where
  name : String
  node : FsNode
  deriving DecidableEq, Repr

/-- A `files.Node` of `go-ipfs-files`: a file with its bytes, or a directory with
the names and identifiers of its children. -/
inductive Node where
  | file (data : Bytes)
  | dir (links : List (String × String))
  deriving DecidableEq, Repr

/-- Go `files.NewReaderFile(reader)`: the node that reads the stream's bytes. -/
def NewReaderFile (reader : Bytes) : Node := .file reader

/-- A path of `interface-go-ipfs-core/path`. -/
structure IPath where
  text : String
  deriving DecidableEq, Repr

/-- A resolved path, as returned by `Unixfs().Add`. -/
structure Resolved where
  text : String
  deriving DecidableEq, Repr

/-- The method `String()` of a resolved path. -/
def Resolved.string (r : Resolved) : String := r.text

/-- A content identifier `cid.Cid`, by its textual rendering. -/
structure Cid where
  text : String
  deriving DecidableEq, Repr

/-- The method `String()` of a content identifier. -/
def Cid.string (c : Cid) : String := c.text

/-- An entry emitted by `Unixfs().Ls`. -/
structure DirEntry where
  Name : String
  Cid : Cid
  Size : Nat := 0
  Err : Option GoError := none
  deriving DecidableEq, Repr

/-- A parsed `multiaddr.Multiaddr`. -/
structure Multiaddr where
  text : String
  deriving DecidableEq, Repr

/-- Go `peer.AddrInfo`: a peer identity and the addresses known for it. -/
structure AddrInfo where
  ID : String
  Addrs : List Multiaddr
  deriving DecidableEq, Repr

/-! ## The environment -/

/-- The calls the adapter makes on its collaborators, in the order made. -/
inductive Call where
  | osStat (path : String)
  | osMkdirAll (path : String)
  | osRemove (path : String)
  | osOpen (path : String)
  | filesNewSerialFile (path : String)
  | filesWriteTo (path : String)
  | unixfsAdd
  | unixfsGet (p : IPath)
  | unixfsLs (p : IPath)
  | pinAdd (p : IPath)
  | pinRm (p : IPath)
  | swarmConnect (id : String)
  | logPrintf (id : String)
  | newPluginLoader (path : String)
  | fsrepoInit (path : String)
  | openNode (path : String)
  deriving DecidableEq, Repr

/-- The operating system and `go-ipfs-files`, acting on a disk state `δ`. -/
structure OS (δ : Type) where
  /-- Go `os.Stat`. -/
  Stat : δ → String → Except GoError FileInfo
  /-- Go `os.MkdirAll(path, os.ModePerm)`. -/
  MkdirAll : δ → String → Option GoError × δ
  /-- Go `os.Remove`. -/
  Remove : δ → String → Option GoError × δ
  /-- Go `os.Open`. -/
  Open : δ → String → Except GoError OsFile
  /-- Go `files.NewSerialFile(path, false, stat)`. -/
  NewSerialFile : δ → String → FileInfo → Except GoError Node
  /-- Go `files.WriteTo(node, path)`. -/
  WriteTo : δ → Node → String → Option GoError × δ
  /-- Go `time.Now()`. -/
  Now : δ → Nat

/-- The content API of the node (`Unixfs()`, `Pin()`, `Swarm()`), the path
constructor and the peer address parsers, acting on a node state `ε`. -/
structure CoreAPI (ε : Type) where
  /-- Go `ipath.New`. -/
  pathNew : String → IPath
  /-- Go `Unixfs().Add`. -/
  UnixfsAdd : ε → Node → Except GoError Resolved × ε
  /-- Go `Unixfs().Get`. -/
  UnixfsGet : ε → IPath → Except GoError Node × ε
  /-- Go `Unixfs().Ls`: the call's error, or the entries emitted before the
  channel is closed. -/
  UnixfsLs : ε → IPath → Except GoError (List DirEntry) × ε
  /-- Go `Pin().Add`. -/
  PinAdd : ε → IPath → Option GoError × ε
  /-- Go `Pin().Rm`. -/
  PinRm : ε → IPath → Option GoError × ε
  /-- Go `Swarm().Connect`. -/
  SwarmConnect : ε → AddrInfo → Option GoError × ε
  /-- Go `ma.NewMultiaddr`. -/
  NewMultiaddr : String → Except GoError Multiaddr
  /-- Go `peer.AddrInfoFromP2pAddr`. -/
  AddrInfoFromP2pAddr : Multiaddr → Except GoError AddrInfo

/-- The adapter `Ipfs`: its content API and its configuration.  The node itself
is the state `ε` carried by the world. -/
structure Ipfs (ε : Type) where
  coreAPI : CoreAPI ε
  config : Config

/-- The state the adapter runs in: the disk, the node, and the calls made so
far. -/
structure World (δ ε : Type) where
  disk : δ
  node : ε
  trace : List Call
  deriving DecidableEq, Repr

variable {δ ε : Type}

/-- Record a call. -/
def World.log (w : World δ ε) (c : Call) : World δ ε :=
  { w with trace := w.trace ++ [c] }

/-- The error result of a call returning `(value, error)`. -/
def errOf {α : Type} : Except GoError α → Option GoError
  | .ok _ => none
  | .error err => some err

/-! ## The adapter -/

/-- `ensureDir` (ipfs.go 168-178): stat the path; only when the stat reports the
path absent, create it with `MkdirAll`, replacing a creation error by a fixed
message; otherwise return the stat's error as it is. -/
def ensureDir (os : OS δ) (w : World δ ε) (path : String) : Option GoError × World δ ε :=
  let err := errOf (os.Stat w.disk path)
  let w := w.log (.osStat path)
  if osIsNotExist err then
    let r := os.MkdirAll w.disk path
    let w := { w with disk := r.2 }.log (.osMkdirAll path)
    match r.1 with
    | some _ => (some (.other ("failed to create root dir: " ++ path)), w)
    | none => (none, w)
  else (err, w)

/-- `makeFilename` (ipfs.go 406-414). -/
def Ipfs.makeFilename (fs : Ipfs ε) (path : String) : Except GoError String :=
  let paths := stringsSplit path '/'
  if h : paths.length = 0 then
    .error (.other "path specified does not specify a valid ipfs CID")
  else
    .ok (filepathJoin [fs.config.TempDir, paths.get ⟨paths.length - 1, by omega⟩])

/-- `Get` (ipfs.go 184-210). -/
def Ipfs.Get (os : OS δ) (fs : Ipfs ε) (w : World δ ε) (path : String) :
    Except GoError OsFile × World δ ε :=
  match fs.makeFilename path with
  | .error err => (.error err, w)
  | .ok fname =>
    let err := errOf (os.Stat w.disk fname)
    let w := w.log (.osStat fname)
    if osIsExist err then
      (os.Open w.disk fname, w.log (.osOpen fname))
    else
      let p := fs.coreAPI.pathNew path
      let r := fs.coreAPI.UnixfsGet w.node p
      let w := { w with node := r.2 }.log (.unixfsGet p)
      match r.1 with
      | .error err => (.error err, w)
      | .ok node =>
        let r := os.WriteTo w.disk node fname
        let w := { w with disk := r.2 }.log (.filesWriteTo fname)
        match r.1 with
        | some err => (.error err, w)
        | none => (os.Open w.disk fname, w.log (.osOpen fname))

/-- The part of `Put` after the node is built (ipfs.go 249-266): add the node,
pin the resolved path, and build the handle.  The outer `none` is the panic of
indexing the split path at 2 out of range. -/
def Ipfs.putNode (os : OS δ) (fs : Ipfs ε) (w : World δ ε) (node : Node) :
    Option (Option Object × Option GoError) × World δ ε :=
  let r := fs.coreAPI.UnixfsAdd w.node node
  let w := { w with node := r.2 }.log .unixfsAdd
  match r.1 with
  | .error err => (some (none, some err), w)
  | .ok res =>
    let p := res.string
    let now := os.Now w.disk
    let ipath := fs.coreAPI.pathNew p
    let r := fs.coreAPI.PinAdd w.node ipath
    let w := { w with node := r.2 }.log (.pinAdd ipath)
    match (stringsSplit p '/')[2]? with
    | none => (none, w)
    | some name => (some (some { Path := p, Name := name, LastModified := now }, r.1), w)

/-- The first part of `Put` (ipfs.go 235-247): the node to ingest.  With a nil
reader the path is stat-ed and read from the disk; otherwise the node reads the
stream. -/
def putSource (os : OS δ) (w : World δ ε) (path : String) (reader : Option Bytes) :
    Except GoError Node × World δ ε :=
  match reader with
  | none =>
    match os.Stat w.disk path with
    | .error err => (.error err, w.log (.osStat path))
    | .ok st =>
      (os.NewSerialFile w.disk path st, (w.log (.osStat path)).log (.filesNewSerialFile path))
  | some reader => (.ok (NewReaderFile reader), w)

/-- `Put` (ipfs.go 233-267); `reader = none` is the nil reader. -/
def Ipfs.Put (os : OS δ) (fs : Ipfs ε) (w : World δ ε) (path : String)
    (reader : Option Bytes) : Option (Option Object × Option GoError) × World δ ε :=
  let r := putSource os w path reader
  match r.1 with
  | .error err => (some (none, some err), r.2)
  | .ok node => fs.putNode os r.2 node

/-- `Delete` (ipfs.go 271-279): the result of `os.Remove` is discarded. -/
def Ipfs.Delete (os : OS δ) (fs : Ipfs ε) (w : World δ ε) (path : String) :
    Option GoError × World δ ε :=
  let w :=
    match fs.makeFilename path with
    | .ok fname => { w with disk := (os.Remove w.disk fname).2 }.log (.osRemove fname)
    | .error _ => w
  let ipath := fs.coreAPI.pathNew path
  let r := fs.coreAPI.PinRm w.node ipath
  (r.1, { w with node := r.2 }.log (.pinRm ipath))

/-- The receive loop of `List` (ipfs.go 291-315) over the entries emitted before
the channel is closed; `dl` is the slice built so far.  `none` is the panic of
indexing the split identifier at 2 out of range. -/
def listLoop (now : Nat) : List DirEntry → List Object → Option (List Object)
  | [], dl => some dl
  | entry :: entries, dl =>
    let p := entry.Cid.string
    if stringsHasPrefix p "/ipfs/" then
      match (stringsSplit p '/')[2]? with
      | none => none
      | some n => listLoop now entries (dl ++ [{ Path := p, Name := n, LastModified := now }])
    else
      listLoop now entries (dl ++ [{ Path := "/ipfs/" ++ p, Name := p, LastModified := now }])

/-- The handle one round of the receive loop builds for an entry (ipfs.go
299-313), when the round does not panic. -/
def entryObject (now : Nat) (entry : DirEntry) : Object :=
  let p := entry.Cid.string
  if stringsHasPrefix p "/ipfs/" then
    { Path := p, Name := ((stringsSplit p '/')[2]?).getD "", LastModified := now }
  else
    { Path := "/ipfs/" ++ p, Name := p, LastModified := now }

/-- `List` (ipfs.go 282-318). -/
def Ipfs.List (os : OS δ) (fs : Ipfs ε) (w : World δ ε) (path : String) :
    Option (Except GoError (List Object)) × World δ ε :=
  let dir := fs.coreAPI.pathNew path
  let r := fs.coreAPI.UnixfsLs w.node dir
  let w := { w with node := r.2 }.log (.unixfsLs dir)
  match r.1 with
  | .error err => (some (.error err), w)
  | .ok entries => ((listLoop (os.Now w.disk) entries []).map .ok, w)

/-- The method `Error()` of a Go error. -/
def GoError.message : GoError → String
  | .errNotExist => "file does not exist"
  | .errExist => "file already exists"
  | .errPermission => "permission denied"
  | .other msg => msg

/-- The libraries that provision the repository and start the node: the plugin
loader, `config.Init`, `json.Unmarshal` on an override document, `fsrepo.Init`,
and `fsrepo.Open` followed by `core.NewNode` and `coreapi.NewCoreAPI`. -/
structure Engine (δ ε : Type) where
  NewPluginLoader : δ → String → Option GoError
  PluginsInitialize : δ → Option GoError
  PluginsInject : δ → Option GoError
  ConfigInit : Option GoError
  Unmarshal : String → Option GoError
  FsrepoInit : δ → String → List String → Option GoError × δ
  OpenNode : δ → String → Except GoError (CoreAPI ε × ε) × δ

/-- `setupPlugins` (ipfs.go 363-381): an injection failure is ignored. -/
def setupPlugins (eng : Engine δ ε) (w : World δ Unit) (path : String) :
    Option GoError × World δ Unit :=
  let w := w.log (.newPluginLoader path)
  match eng.NewPluginLoader w.disk path with
  | some err => (some (.other ("error loading plugins: " ++ err.message)), w)
  | none =>
    match eng.PluginsInitialize w.disk with
    | some err => (some (.other ("error initializing plugins: " ++ err.message)), w)
    | none =>
      match eng.PluginsInject w.disk with
      | some _ => (none, w)
      | none => (none, w)

/-- `createRepo` (ipfs.go 385-404). -/
def createRepo (eng : Engine δ ε) (cfg : Config) (w : World δ Unit) (repoPath : String) :
    Option GoError × World δ Unit :=
  match cfg.DataStore.bind eng.Unmarshal with
  | some err => (some err, w)
  | none =>
    let r := eng.FsrepoInit w.disk repoPath cfg.Peers
    let w := { w with disk := r.2 }.log (.fsrepoInit repoPath)
    match r.1 with
    | some err => (some (.other ("failed to init ipfs node: " ++ err.message)), w)
    | none => (none, w)

/-- `createNode` (ipfs.go 331-361). -/
def createNode (eng : Engine δ ε) (w : World δ Unit) (repoPath : String) :
    Except GoError (CoreAPI ε × ε) × World δ Unit :=
  let r := eng.OpenNode w.disk repoPath
  (r.1, { w with disk := r.2 }.log (.openNode repoPath))

/-- `New` (ipfs.go 79-147): on success the adapter and the state of the node it
started. -/
def New (os : OS δ) (eng : Engine δ ε) (w : World δ Unit) (cfg : Config) :
    Except GoError (Ipfs ε × ε) × World δ Unit :=
  let r := ensureDir os w cfg.RootPath
  match r.1 with
  | some err => (.error err, r.2)
  | none =>
    let r := ensureDir os r.2 cfg.TempDir
    match r.1 with
    | some err => (.error err, r.2)
    | none =>
      let r := setupPlugins eng r.2 cfg.RootPath
      match r.1 with
      | some err => (.error err, r.2)
      | none =>
        match eng.ConfigInit with
        | some err => (.error err, r.2)
        | none =>
          match cfg.Addresses.bind eng.Unmarshal with
          | some err => (.error err, r.2)
          | none =>
            let r := createRepo eng cfg r.2 cfg.RootPath
            match r.1 with
            | some err => (.error (.other ("failed to create ipfs repo: " ++ err.message)), r.2)
            | none =>
              let r := createNode eng r.2 cfg.RootPath
              match r.1 with
              | .error err => (.error (.other ("failed to create ipfs node: " ++ err.message)), r.2)
              | .ok (api, node) => (.ok ({ coreAPI := api, config := cfg }, node), r.2)

/-! ## A concrete environment

A disk that maps paths to files and directories, and a node that stores content
under an identifier computed from the content, keeps a set of pins and answers
dials of the peers it can reach. -/

namespace Ref

/-- The disk: the objects present, by path; the first binding of a path counts. -/
abbrev Disk := List (String × FsNode)

/-- The object at a path, if any. -/
def Disk.at (d : Disk) (path : String) : Option FsNode := d.lookup path

/-- Stat succeeds on whatever is present: file or directory. -/
def Stat (d : Disk) (path : String) : Except GoError FileInfo :=
  match d.at path with
  | none => .error .errNotExist
  | some (.file data) => .ok { IsDir := false, Size := data.length }
  | some .dir => .ok { IsDir := true, Size := 0 }

/-- MkdirAll: nothing to do on a directory, an error on a file or on the empty
path, and otherwise the directory is created. -/
def MkdirAll (d : Disk) (path : String) : Option GoError × Disk :=
  match d.at path with
  | some .dir => (none, d)
  | some (.file _) => (some (.other "not a directory"), d)
  | none => if path = "" then (some .errNotExist, d) else (none, (path, .dir) :: d)

/-- Remove: an error on an absent path, otherwise the object is gone. -/
def Remove (d : Disk) (path : String) : Option GoError × Disk :=
  match d.at path with
  | none => (some .errNotExist, d)
  | some _ => (none, d.filter (fun e => e.1 != path))

/-- Open: an error on an absent path, otherwise a handle on the object. -/
def Open (d : Disk) (path : String) : Except GoError OsFile :=
  match d.at path with
  | none => .error .errNotExist
  | some node => .ok { name := path, node := node }

/-- NewSerialFile: the node reading the object at the path. -/
def NewSerialFile (d : Disk) (path : String) (_ : FileInfo) : Except GoError Node :=
  match d.at path with
  | none => .error .errNotExist
  | some (.file data) => .ok (.file data)
  | some .dir => .ok (.dir [])

/-- WriteTo: a file node is written by create-or-truncate, which fails on a
directory; a directory node is made by `Mkdir`, which fails on anything
present. -/
def WriteTo (d : Disk) (node : Node) (path : String) : Option GoError × Disk :=
  match node with
  | .file data =>
    match d.at path with
    | some .dir => (some (.other "is a directory"), d)
    | _ => (none, (path, .file data) :: d)
  | .dir _ =>
    match d.at path with
    | some _ => (some .errExist, d)
    | none => (none, (path, .dir) :: d)

/-- The concrete operating system. -/
def os : OS Disk where
  Stat := Stat
  MkdirAll := MkdirAll
  Remove := Remove
  Open := Open
  NewSerialFile := NewSerialFile
  WriteTo := WriteTo
  Now := fun _ => 0

/-- The node: stored content by identifier, the pinned identifiers, and the peers
that answer a dial. -/
structure NodeState where
  blocks : List (String × Node)
  pins : List String
  reachable : List String
  deriving DecidableEq, Repr

/-- A stand-in for the content hash: an identifier computed from the content. -/
def cidOf : Node → String
  | .file data => "Qm" ++ String.join (data.map fun b => toString (b.toNat % 10))
  | .dir links => "Qd" ++ toString links.length

/-- The path constructor puts a bare identifier under `/ipfs/`. -/
def pathNew (p : String) : IPath :=
  if stringsHasPrefix p "/ipfs/" then { text := p } else { text := "/ipfs/" ++ p }

/-- The identifier a path names: what follows `/ipfs/`. -/
def cidAt (p : IPath) : String := String.mk (p.text.data.drop 6)

/-- Add stores the node under its identifier and resolves to `/ipfs/<cid>`. -/
def UnixfsAdd (s : NodeState) (node : Node) : Except GoError Resolved × NodeState :=
  (.ok { text := "/ipfs/" ++ cidOf node }, { s with blocks := (cidOf node, node) :: s.blocks })

/-- Get resolves an identifier to the content stored under it. -/
def UnixfsGet (s : NodeState) (p : IPath) : Except GoError Node × NodeState :=
  match s.blocks.lookup (cidAt p) with
  | some node => (.ok node, s)
  | none => (.error (.other "could not resolve"), s)

/-- Ls emits the children of a stored directory. -/
def UnixfsLs (s : NodeState) (p : IPath) : Except GoError (List DirEntry) × NodeState :=
  match s.blocks.lookup (cidAt p) with
  | some (.dir links) => (.ok (links.map fun l => { Name := l.1, Cid := { text := l.2 } }), s)
  | some (.file _) => (.ok [], s)
  | none => (.error (.other "could not resolve"), s)

/-- Pinning needs the content to be stored. -/
def PinAdd (s : NodeState) (p : IPath) : Option GoError × NodeState :=
  if (s.blocks.lookup (cidAt p)).isSome then (none, { s with pins := cidAt p :: s.pins })
  else (some (.other "could not resolve"), s)

/-- Unpinning fails when the identifier is not pinned. -/
def PinRm (s : NodeState) (p : IPath) : Option GoError × NodeState :=
  if cidAt p ∈ s.pins then (none, { s with pins := s.pins.filter (fun c => c != cidAt p) })
  else (some (.other "not pinned or pinned indirectly"), s)

/-- A dial succeeds on the peers the node can reach. -/
def SwarmConnect (s : NodeState) (pi : AddrInfo) : Option GoError × NodeState :=
  if pi.ID ∈ s.reachable then (none, s) else (some (.other "dial backoff"), s)

/-- A multiaddr starts with `/`. -/
def NewMultiaddr (addr : String) : Except GoError Multiaddr :=
  if stringsHasPrefix addr "/" then .ok { text := addr }
  else .error (.other "failed to parse multiaddr: must begin with /")

/-- A p2p address ends in `/p2p/<identity>`; what precedes is the transport
address. -/
def AddrInfoFromP2pAddr (addr : Multiaddr) : Except GoError AddrInfo :=
  match (stringsSplit addr.text '/').reverse with
  | id :: "p2p" :: rest =>
    .ok { ID := id, Addrs := if rest = [""] then [] else [{ text := stringsJoin rest.reverse "/" }] }
  | _ => .error (.other "invalid p2p multiaddr")

/-- The concrete content API. -/
def api : CoreAPI NodeState where
  pathNew := pathNew
  UnixfsAdd := UnixfsAdd
  UnixfsGet := UnixfsGet
  UnixfsLs := UnixfsLs
  PinAdd := PinAdd
  PinRm := PinRm
  SwarmConnect := SwarmConnect
  NewMultiaddr := NewMultiaddr
  AddrInfoFromP2pAddr := AddrInfoFromP2pAddr

/-- The adapter of the test suite, with its temp directory. -/
def fs : Ipfs NodeState where
  coreAPI := api
  config := { RootPath := "/data/ipfs", TempDir := "/data/tmp" }

/-- A node with nothing stored. -/
def emptyNode : NodeState := { blocks := [], pins := [], reachable := [] }

/-- A node holding a directory whose listing emits one bare identifier and one
that already carries the `/ipfs/` prefix. -/
def dirNode : NodeState :=
  { blocks := [("Qd2", .dir [("test1.txt", "QmA"), ("test2.txt", "/ipfs/QmB")])],
    pins := ["Qd2"], reachable := [] }

/-- The world of the directory listing. -/
def dirWorld : World Disk NodeState :=
  { disk := [("/data/tmp", .dir)], node := dirNode, trace := [] }

/-- A world with an empty temp directory and nothing stored. -/
def freshWorld : World Disk NodeState :=
  { disk := [("/data/tmp", .dir)], node := emptyNode, trace := [] }

/-- A content API whose pin-add always fails, the rest as before. -/
def apiPinFails : CoreAPI NodeState :=
  { api with PinAdd := fun s _ => (some (.other "pin: datastore closed"), s) }

/-- The adapter over the content API whose pin-add fails. -/
def fsPinFails : Ipfs NodeState where
  coreAPI := apiPinFails
  config := { RootPath := "/data/ipfs", TempDir := "/data/tmp" }

/-- The configuration of the test suite: one path for root and temp. -/
def testConfig : Config := { RootPath := "/data/ipfs", TempDir := "/data/ipfs" }

/-- A disk on which the configured path is a regular file, before any node is
started. -/
def fileAtRoot : World Disk Unit :=
  { disk := [("/data/ipfs", .file [1])], node := (), trace := [] }

end Ref

/-! ## Facts about the string helpers -/

theorem splitChars_ne_nil (sep : Char) (cs : List Char) : splitChars sep cs ≠ [] := by
  induction cs with
  | nil => simp [splitChars]
  | cons c cs ih =>
    unfold splitChars
    split
    · simp
    · split <;> simp

theorem splitChars_cons_ne (sep c : Char) (cs : List Char) (h : c ≠ sep) :
    ∃ seg segs, splitChars sep cs = seg :: segs ∧
      splitChars sep (c :: cs) = (c :: seg) :: segs := by
  cases hs : splitChars sep cs with
  | nil => exact absurd hs (splitChars_ne_nil sep cs)
  | cons seg segs =>
    refine ⟨seg, segs, rfl, ?_⟩
    rw [splitChars, if_neg h, hs]

/-- A sequence without the separator is its own single segment. -/
theorem splitChars_no_sep (sep : Char) (cs : List Char) (h : sep ∉ cs) :
    splitChars sep cs = [cs] := by
  induction cs with
  | nil => simp [splitChars]
  | cons c cs ih =>
    have hc : c ≠ sep := fun e => h (by simp [e])
    have hcs : sep ∉ cs := fun e => h (by simp [e])
    rw [splitChars, if_neg hc, ih hcs]

/-- Splitting `a ++ sep :: b`, where `a` has no separator, yields `a` and then the
segments of `b`. -/
theorem splitChars_append_sep (sep : Char) (a b : List Char) (h : sep ∉ a) :
    splitChars sep (a ++ sep :: b) = a :: splitChars sep b := by
  induction a with
  | nil => simp [splitChars]
  | cons c a ih =>
    have hc : c ≠ sep := fun e => h (by simp [e])
    have ha : sep ∉ a := fun e => h (by simp [e])
    rw [List.cons_append, splitChars, if_neg hc, ih ha]

theorem stringsSplit_ne_nil (s : String) (sep : Char) : stringsSplit s sep ≠ [] := by
  simp [stringsSplit, splitChars_ne_nil]

theorem stringsSplit_length_pos (s : String) (sep : Char) : 0 < (stringsSplit s sep).length :=
  List.length_pos.mpr (stringsSplit_ne_nil s sep)

/-- The segments of `"/ipfs/" ++ rest`: an empty one, `ipfs`, and those of
`rest`. -/
theorem stringsSplit_ipfs (rest : String) :
    stringsSplit ("/ipfs/" ++ rest) '/' = "" :: "ipfs" :: stringsSplit rest '/' := by
  have h1 : ("/ipfs/" ++ rest).data = [] ++ '/' :: (['i', 'p', 'f', 's'] ++ '/' :: rest.data) := by
    simp [String.data_append]
  simp only [stringsSplit, h1]
  rw [splitChars_append_sep _ _ _ (by simp), splitChars_append_sep _ _ _ (by decide)]
  rfl

/-- A string with the prefix `/ipfs/` is that prefix followed by a rest. -/
theorem eq_ipfs_append_of_hasPrefix (p : String) (h : stringsHasPrefix p "/ipfs/" = true) :
    ∃ rest : String, p = "/ipfs/" ++ rest := by
  simp only [stringsHasPrefix, List.isPrefixOf_iff_prefix] at h
  obtain ⟨t, ht⟩ := h
  refine ⟨String.mk t, ?_⟩
  apply String.ext
  simp [String.data_append, ← ht]

theorem hasPrefix_ipfs_append (rest : String) :
    stringsHasPrefix ("/ipfs/" ++ rest) "/ipfs/" = true := by
  simp [stringsHasPrefix, String.data_append]

/-- A string without `/` does not have the prefix `/ipfs/`. -/
theorem hasPrefix_ipfs_false_of_no_slash (c : String) (h : '/' ∉ c.data) :
    stringsHasPrefix c "/ipfs/" = false := by
  cases hp : stringsHasPrefix c "/ipfs/" with
  | false => rfl
  | true =>
    obtain ⟨rest, hr⟩ := eq_ipfs_append_of_hasPrefix c hp
    exact absurd (by simp [hr, String.data_append]) h

/-- Indexing the split of a string with prefix `/ipfs/` at 2 is in bounds. -/
theorem stringsSplit_ipfs_index (rest : String) :
    ∃ n, (stringsSplit ("/ipfs/" ++ rest) '/')[2]? = some n := by
  rw [stringsSplit_ipfs]
  cases hs : stringsSplit rest '/' with
  | nil => exact absurd hs (stringsSplit_ne_nil rest '/')
  | cons n ns => exact ⟨n, by simp⟩

/-- A string with the prefix `/ipfs/` splits into at least three segments. -/
theorem stringsSplit_length_of_hasPrefix (p : String) (h : stringsHasPrefix p "/ipfs/" = true) :
    2 < (stringsSplit p '/').length := by
  obtain ⟨rest, hr⟩ := eq_ipfs_append_of_hasPrefix p h
  have := stringsSplit_length_pos rest '/'
  rw [hr, stringsSplit_ipfs]
  simp only [List.length_cons]
  omega

/-- The third segment of `/ipfs/<cid>` is the identifier when it has no `/`. -/
theorem stringsSplit_ipfs_cid (cid : String) (h : '/' ∉ cid.data) :
    stringsSplit ("/ipfs/" ++ cid) '/' = ["", "ipfs", cid] := by
  rw [stringsSplit_ipfs]
  simp [stringsSplit, splitChars_no_sep _ _ h]

/-! ## Filename derivation -/

/-- The derived filename: `makeFilename` always succeeds, with the temp directory
joined with the last segment of the identifier. -/
theorem makeFilename_ok (fs : Ipfs ε) (path : String) :
    ∃ last, (stringsSplit path '/').getLast? = some last ∧
      fs.makeFilename path = .ok (filepathJoin [fs.config.TempDir, last]) := by
  have hpos := stringsSplit_length_pos path '/'
  have hne : ¬ (stringsSplit path '/').length = 0 := by omega
  refine ⟨(stringsSplit path '/').get ⟨(stringsSplit path '/').length - 1, by omega⟩, ?_, ?_⟩
  · rw [List.getLast?_eq_getElem?, List.get_eq_getElem, List.getElem?_eq_getElem]
  · simp only [Ipfs.makeFilename, dif_neg hne]

/-- C8. Filename derivation: `makeFilename` splits the identifier on `/` and
returns the temp directory joined with the final segment; it returns an error
exactly when the split has zero segments (which `strings.Split` with a non-empty
separator never produces, so the error branch is never taken). -/
theorem makeFilename_derivation (fs : Ipfs ε) (path : String) :
    ((∃ err, fs.makeFilename path = .error err) ↔ (stringsSplit path '/').length = 0) ∧
    (∃ last, (stringsSplit path '/').getLast? = some last ∧
      fs.makeFilename path = .ok (filepathJoin [fs.config.TempDir, last])) := by
  obtain ⟨last, hlast, hok⟩ := makeFilename_ok fs path
  refine ⟨⟨?_, ?_⟩, last, hlast, hok⟩
  · rintro ⟨err, herr⟩
    rw [hok] at herr
    cases herr
  · intro h
    have := stringsSplit_length_pos path '/'
    omega

/-! ## Get -/

/-- `os.IsExist` is false on the error result of a stat that succeeded. -/
theorem osIsExist_errOf_ok {α : Type} (a : α) : osIsExist (errOf (Except.ok a)) = false := rfl

/-- Whenever the stat of the derived filename succeeds (the staged file is
there), `Get` still asks the content API to resolve the identifier. -/
theorem Get_resolves_when_staged (os : OS δ) (fs : Ipfs ε) (w : World δ ε) (path fname : String)
    (info : FileInfo) (hname : fs.makeFilename path = .ok fname)
    (hstat : os.Stat w.disk fname = .ok info) :
    Call.unixfsGet (fs.coreAPI.pathNew path) ∈ (fs.Get os w path).2.trace := by
  simp only [Ipfs.Get, hname, hstat, osIsExist_errOf_ok]
  cases h1 : (fs.coreAPI.UnixfsGet (w.log (Call.osStat fname)).node (fs.coreAPI.pathNew path)).1 with
  | error err => simp [World.log]
  | ok node =>
    simp only [Bool.false_eq_true, if_false]
    split <;> simp [World.log]

/-- C1 (the code departs from the claim). With a staged file present under the
derived name, `Get` does not return it as it is: the stat succeeds, `os.IsExist`
of its nil error is false, and the identifier is resolved through the content
API.  When the node cannot resolve it, `Get` fails although the staged file is
there; when it can, the staged file is written again. -/
theorem Get_ignores_staged_file :
    Ref.fs.makeFilename "/ipfs/Qm123" = .ok "/data/tmp/Qm123" ∧
    Ref.os.Stat [("/data/tmp/Qm123", FsNode.file [9]), ("/data/tmp", FsNode.dir)] "/data/tmp/Qm123"
      = .ok { IsDir := false, Size := 1 } ∧
    Ref.fs.Get Ref.os
        { disk := [("/data/tmp/Qm123", FsNode.file [9]), ("/data/tmp", FsNode.dir)],
          node := Ref.emptyNode, trace := [] } "/ipfs/Qm123"
      = (.error (.other "could not resolve"),
         { disk := [("/data/tmp/Qm123", FsNode.file [9]), ("/data/tmp", FsNode.dir)],
           node := Ref.emptyNode,
           trace := [.osStat "/data/tmp/Qm123", .unixfsGet { text := "/ipfs/Qm123" }] }) ∧
    (Ref.fs.Get Ref.os
        { disk := [("/data/tmp/Qm123", FsNode.file [9]), ("/data/tmp", FsNode.dir)],
          node := { blocks := [("Qm123", Node.file [1, 2, 3])], pins := [], reachable := [] },
          trace := [] } "/ipfs/Qm123").2.trace
      = [.osStat "/data/tmp/Qm123", .unixfsGet { text := "/ipfs/Qm123" },
         .filesWriteTo "/data/tmp/Qm123", .osOpen "/data/tmp/Qm123"] := by
  refine ⟨by decide, by decide, by decide, by decide⟩

/-! ## Put followed by Get -/

namespace Ref

end Ref

/-- The receive loop never panics: it appends, in order, the handle of every
entry. -/
theorem listLoop_eq (now : Nat) (entries : List DirEntry) (dl : List Object) :
    listLoop now entries dl = some (dl ++ entries.map (entryObject now)) := by
  induction entries generalizing dl with
  | nil => simp [listLoop]
  | cons entry entries ih =>
    unfold listLoop
    cases hp : stringsHasPrefix entry.Cid.string "/ipfs/" with
    | false => simp [ih, entryObject, hp]
    | true =>
      obtain ⟨rest, hr⟩ := eq_ipfs_append_of_hasPrefix _ hp
      obtain ⟨n, hn⟩ := stringsSplit_ipfs_index rest
      rw [← hr] at hn
      simp [ih, entryObject, hp, hn]

theorem entryObject_hasPrefix (now : Nat) (entry : DirEntry) :
    stringsHasPrefix (entryObject now entry).Path "/ipfs/" = true := by
  cases hp : stringsHasPrefix entry.Cid.string "/ipfs/" with
  | false => simp [entryObject, hp, hasPrefix_ipfs_append]
  | true => simp [entryObject, hp]

theorem entryObject_bare (now : Nat) (entry : DirEntry)
    (hp : stringsHasPrefix entry.Cid.string "/ipfs/" = false) :
    (entryObject now entry).Name = entry.Cid.string ∧
      (entryObject now entry).Path = "/ipfs/" ++ entry.Cid.string := by
  simp [entryObject, hp]

theorem entryObject_cid (now : Nat) (entry : DirEntry) (cid : String) (hc : '/' ∉ cid.data)
    (hraw : entry.Cid.string = cid ∨ entry.Cid.string = "/ipfs/" ++ cid) :
    (entryObject now entry).Path = "/ipfs/" ++ cid ∧ (entryObject now entry).Name = cid := by
  rcases hraw with h | h
  · have hp := hasPrefix_ipfs_false_of_no_slash cid hc
    simp [entryObject, h, hp]
  · simp [entryObject, h, hasPrefix_ipfs_append, stringsSplit_ipfs_cid cid hc]

/-- What `List` returns when the listing call succeeds. -/
theorem List_ok (os : OS δ) (fs : Ipfs ε) (w : World δ ε) (path : String)
    (entries : List DirEntry)
    (hls : (fs.coreAPI.UnixfsLs w.node (fs.coreAPI.pathNew path)).1 = .ok entries) :
    (fs.List os w path).1 = some (.ok (entries.map (entryObject (os.Now w.disk)))) := by
  simp [Ipfs.List, hls, listLoop_eq, World.log]

/-- C3. Path normalization: for every entry the listing emits, the handle `List`
returns at the same position has a path beginning with `/ipfs/`; when the
entry's identifier renders as a bare `<cid>` or as `/ipfs/<cid>` (a cid has no
`/`), the path is `/ipfs/` followed by the name and the name is the cid; and
for any rendering without the prefix the name is the rendering and the path is
`/ipfs/` followed by it. -/
theorem List_path_normalization (os : OS δ) (fs : Ipfs ε) (w : World δ ε) (path : String)
    (entries : List DirEntry)
    (hls : (fs.coreAPI.UnixfsLs w.node (fs.coreAPI.pathNew path)).1 = .ok entries) :
    ∃ dl, (fs.List os w path).1 = some (.ok dl) ∧ dl.length = entries.length ∧
      ∀ (i : Nat) (entry : DirEntry) (o : Object),
        entries[i]? = some entry → dl[i]? = some o →
          stringsHasPrefix o.Path "/ipfs/" = true ∧
          (∀ cid : String, '/' ∉ cid.data →
            (entry.Cid.string = cid ∨ entry.Cid.string = "/ipfs/" ++ cid) →
              o.Path = "/ipfs/" ++ o.Name ∧ o.Name = cid) ∧
          (stringsHasPrefix entry.Cid.string "/ipfs/" = false →
            o.Name = entry.Cid.string ∧ o.Path = "/ipfs/" ++ o.Name) := by
  refine ⟨_, List_ok os fs w path entries hls, by simp, ?_⟩
  intro i entry o he ho
  rw [List.getElem?_map, he] at ho
  simp only [Option.map_some', Option.some.injEq] at ho
  subst ho
  refine ⟨entryObject_hasPrefix _ _, ?_, ?_⟩
  · intro cid hc hraw
    obtain ⟨h1, h2⟩ := entryObject_cid (os.Now w.disk) entry cid hc hraw
    rw [h1, h2]
    exact ⟨rfl, rfl⟩
  · intro hp
    obtain ⟨h1, h2⟩ := entryObject_bare (os.Now w.disk) entry hp
    rw [h1, h2]
    exact ⟨rfl, rfl⟩

/-- C4. When the listing call succeeds and emits `entries`, `List` returns no
error and exactly as many handles, the `i`-th being the handle the loop body
builds for the `i`-th entry (order kept, nothing dropped, duplicated or
sorted); when the listing call fails, `List` returns that error and no
handles. -/
theorem List_follows_emission (os : OS δ) (fs : Ipfs ε) (w : World δ ε) (path : String) :
    (∀ err, (fs.coreAPI.UnixfsLs w.node (fs.coreAPI.pathNew path)).1 = .error err →
      (fs.List os w path).1 = some (.error err)) ∧
    (∀ entries, (fs.coreAPI.UnixfsLs w.node (fs.coreAPI.pathNew path)).1 = .ok entries →
      ∃ dl, (fs.List os w path).1 = some (.ok dl) ∧ dl.length = entries.length ∧
        ∀ (i : Nat) (entry : DirEntry), entries[i]? = some entry →
          ∃ o, dl[i]? = some o ∧ listLoop (os.Now w.disk) [entry] [] = some [o]) := by
  constructor
  · intro err herr
    simp [Ipfs.List, herr]
  · intro entries hls
    refine ⟨_, List_ok os fs w path entries hls, by simp, ?_⟩
    intro i entry he
    refine ⟨entryObject (os.Now w.disk) entry, ?_, ?_⟩
    · rw [List.getElem?_map, he]
      rfl
    · rw [listLoop_eq]
      rfl

/-- Witness of C3 on the concrete environment: a directory whose listing emits
a bare identifier and a prefixed one. -/
theorem List_path_normalization_witness :
    (Ref.fs.coreAPI.UnixfsLs Ref.dirWorld.node (Ref.fs.coreAPI.pathNew "/ipfs/Qd2")).1
      = .ok [{ Name := "test1.txt", Cid := { text := "QmA" } },
             { Name := "test2.txt", Cid := { text := "/ipfs/QmB" } }] ∧
    (Ref.fs.List Ref.os Ref.dirWorld "/ipfs/Qd2").1
      = some (.ok [{ Path := "/ipfs/QmA", Name := "QmA", LastModified := 0 },
                   { Path := "/ipfs/QmB", Name := "QmB", LastModified := 0 }]) ∧
    ∃ dl, (Ref.fs.List Ref.os Ref.dirWorld "/ipfs/Qd2").1 = some (.ok dl) ∧
      dl.length = [({ Name := "test1.txt", Cid := { text := "QmA" } } : DirEntry),
             { Name := "test2.txt", Cid := { text := "/ipfs/QmB" } }].length ∧
      ∀ (i : Nat) (entry : DirEntry) (o : Object),
        [({ Name := "test1.txt", Cid := { text := "QmA" } } : DirEntry),
             { Name := "test2.txt", Cid := { text := "/ipfs/QmB" } }][i]? = some entry →
        dl[i]? = some o →
          stringsHasPrefix o.Path "/ipfs/" = true ∧
          (∀ cid : String, '/' ∉ cid.data →
            (entry.Cid.string = cid ∨ entry.Cid.string = "/ipfs/" ++ cid) →
              o.Path = "/ipfs/" ++ o.Name ∧ o.Name = cid) ∧
          (stringsHasPrefix entry.Cid.string "/ipfs/" = false →
            o.Name = entry.Cid.string ∧ o.Path = "/ipfs/" ++ o.Name) :=
  ⟨by decide, by decide,
   List_path_normalization Ref.os Ref.fs Ref.dirWorld "/ipfs/Qd2" _ (by decide)⟩

/-- Witness of C4 on the concrete environment: the two entries of a stored
directory give two handles in emission order, and listing an identifier the
node cannot resolve returns the error of the listing call. -/
theorem List_follows_emission_witness :
    (Ref.fs.List Ref.os Ref.dirWorld "/ipfs/Qd2").1
      = some (.ok [{ Path := "/ipfs/QmA", Name := "QmA", LastModified := 0 },
                   { Path := "/ipfs/QmB", Name := "QmB", LastModified := 0 }]) ∧
    (Ref.fs.List Ref.os Ref.dirWorld "/ipfs/QmNone").1
      = some (.error (.other "could not resolve")) ∧
    (∃ dl, (Ref.fs.List Ref.os Ref.dirWorld "/ipfs/Qd2").1 = some (.ok dl) ∧
      dl.length = [({ Name := "test1.txt", Cid := { text := "QmA" } } : DirEntry),
             { Name := "test2.txt", Cid := { text := "/ipfs/QmB" } }].length ∧
      ∀ (i : Nat) (entry : DirEntry),
        [({ Name := "test1.txt", Cid := { text := "QmA" } } : DirEntry),
             { Name := "test2.txt", Cid := { text := "/ipfs/QmB" } }][i]? = some entry →
          ∃ o, dl[i]? = some o ∧ listLoop (Ref.os.Now Ref.dirWorld.disk) [entry] [] = some [o]) :=
  ⟨by decide,
   (List_follows_emission Ref.os Ref.fs Ref.dirWorld "/ipfs/QmNone").1 _ (by decide),
   (List_follows_emission Ref.os Ref.fs Ref.dirWorld "/ipfs/Qd2").2 _ (by decide)⟩

/-! ## Delete -/

/-- C5. `Delete` returns exactly the result of removing the pin: it returns an
error if and only if the pin removal fails, and the result is the same for
every behaviour of `os.Remove` and every state of the disk (staged file absent,
removal failing, or removal succeeding). -/
theorem Delete_error_iff_pin_removal_fails (os os' : OS δ) (fs : Ipfs ε) (w : World δ ε)
    (d' : δ) (path : String) :
    (fs.Delete os w path).1 = (fs.coreAPI.PinRm w.node (fs.coreAPI.pathNew path)).1 ∧
    ((fs.Delete os w path).1 ≠ none ↔
      (fs.coreAPI.PinRm w.node (fs.coreAPI.pathNew path)).1 ≠ none) ∧
    (fs.Delete os' { w with disk := d' } path).1 = (fs.Delete os w path).1 := by
  obtain ⟨last, -, hname⟩ := makeFilename_ok fs path
  have key : ∀ (o : OS δ) (v : World δ ε), v.node = w.node →
      (fs.Delete o v path).1 = (fs.coreAPI.PinRm w.node (fs.coreAPI.pathNew path)).1 := by
    intro o v hv
    simp [Ipfs.Delete, hname, World.log, hv]
  refine ⟨key os w rfl, ?_, ?_⟩
  · rw [key os w rfl]
  · exact (key os' { w with disk := d' } rfl).trans (key os w rfl).symm

/-! ## Put -/

/-- Building the node to ingest leaves the disk and the node of the world as they
were. -/
theorem putSource_world (os : OS δ) (w : World δ ε) (path : String) (reader : Option Bytes) :
    (putSource os w path reader).2.disk = w.disk ∧
      (putSource os w path reader).2.node = w.node := by
  unfold putSource
  cases reader with
  | some r => exact ⟨rfl, rfl⟩
  | none =>
    cases os.Stat w.disk path with
    | error err => exact ⟨rfl, rfl⟩
    | ok st => exact ⟨rfl, rfl⟩

/-- The result of `Put` once the node is built and added: the panic when the
resolved path has no third segment, otherwise the handle together with whatever
the pin-add returned. -/
theorem Put_after_add (os : OS δ) (fs : Ipfs ε) (w : World δ ε) (path : String)
    (reader : Option Bytes) (node : Node) (res : Resolved)
    (hsrc : (putSource os w path reader).1 = .ok node)
    (hadd : (fs.coreAPI.UnixfsAdd w.node node).1 = .ok res) :
    (fs.Put os w path reader).1 =
      ((stringsSplit res.string '/')[2]?).map fun name =>
        (some { Path := res.string, Name := name, LastModified := os.Now w.disk },
         (fs.coreAPI.PinAdd (fs.coreAPI.UnixfsAdd w.node node).2
           (fs.coreAPI.pathNew res.string)).1) := by
  obtain ⟨hd, hn⟩ := putSource_world os w path reader
  simp only [Ipfs.Put, hsrc, Ipfs.putNode, hn, hadd, World.log, hd]
  cases (stringsSplit res.string '/')[2]? <;> rfl

/-- C6. When ingestion succeeds and adding the pin fails, `Put` returns both a
handle, carrying the resolved path and its third segment as name, and the
pin-add error; this needs the resolved path to have a third segment, which
every path in the `/ipfs/` namespace has.  When the local stat, the reading of
the local file or the ingestion fails, `Put` returns that error and no
handle. -/
theorem Put_pin_failure_keeps_handle (os : OS δ) (fs : Ipfs ε) (w : World δ ε) (path : String)
    (reader : Option Bytes) :
    (∀ node res err,
      (putSource os w path reader).1 = .ok node →
      (fs.coreAPI.UnixfsAdd w.node node).1 = .ok res →
      2 < (stringsSplit res.string '/').length →
      (fs.coreAPI.PinAdd (fs.coreAPI.UnixfsAdd w.node node).2
        (fs.coreAPI.pathNew res.string)).1 = some err →
      ∃ name, (stringsSplit res.string '/')[2]? = some name ∧
        (fs.Put os w path reader).1 =
          some (some { Path := res.string, Name := name, LastModified := os.Now w.disk },
                some err)) ∧
    (∀ err, reader = none → os.Stat w.disk path = .error err →
      (fs.Put os w path reader).1 = some (none, some err)) ∧
    (∀ st err, reader = none → os.Stat w.disk path = .ok st →
      os.NewSerialFile w.disk path st = .error err →
      (fs.Put os w path reader).1 = some (none, some err)) ∧
    (∀ node err,
      (putSource os w path reader).1 = .ok node →
      (fs.coreAPI.UnixfsAdd w.node node).1 = .error err →
      (fs.Put os w path reader).1 = some (none, some err)) := by
  refine ⟨?_, ?_, ?_, ?_⟩
  · intro node res err hsrc hadd hlen hpin
    have hname : (stringsSplit res.string '/')[2]? = some ((stringsSplit res.string '/')[2]) :=
      List.getElem?_eq_getElem hlen
    refine ⟨_, hname, ?_⟩
    rw [Put_after_add os fs w path reader node res hsrc hadd, hname, hpin]
    rfl
  · intro err hr hstat
    subst hr
    simp [Ipfs.Put, putSource, hstat]
  · intro st err hr hstat hnew
    subst hr
    simp [Ipfs.Put, putSource, hstat, hnew]
  · intro node err hsrc hadd
    obtain ⟨hd, hn⟩ := putSource_world os w path reader
    simp [Ipfs.Put, hsrc, Ipfs.putNode, hn, hadd]

/-- C7. When ingestion succeeds and the resolved path renders as
`/ipfs/<identifier>` with no `/` in the identifier, indexing the split path at 2
is in bounds and yields the identifier, and `Put` returns the handle with path
`/ipfs/<identifier>` and name `<identifier>` (next to whatever the pin-add
returned). -/
theorem Put_handle_path_and_name (os : OS δ) (fs : Ipfs ε) (w : World δ ε) (path : String)
    (reader : Option Bytes) (node : Node) (res : Resolved) (identifier : String)
    (hsrc : (putSource os w path reader).1 = .ok node)
    (hadd : (fs.coreAPI.UnixfsAdd w.node node).1 = .ok res)
    (hres : res.string = "/ipfs/" ++ identifier)
    (hid : '/' ∉ identifier.data) :
    2 < (stringsSplit res.string '/').length ∧
    (stringsSplit res.string '/')[2]? = some identifier ∧
    (fs.Put os w path reader).1 =
      some (some { Path := "/ipfs/" ++ identifier, Name := identifier,
                   LastModified := os.Now w.disk },
            (fs.coreAPI.PinAdd (fs.coreAPI.UnixfsAdd w.node node).2
              (fs.coreAPI.pathNew res.string)).1) := by
  have hsplit := stringsSplit_ipfs_cid identifier hid
  refine ⟨by simp [hres, hsplit], by simp [hres, hsplit], ?_⟩
  rw [Put_after_add os fs w path reader node res hsrc hadd]
  simp [hres, hsplit]

/-- Witness of C6 on the concrete environment: with a pin-add that fails, `Put`
of a stream returns the handle and the pin-add error; `Put` of an absent local
path returns the stat error and no handle. -/
theorem Put_pin_failure_keeps_handle_witness :
    (Ref.fsPinFails.Put Ref.os Ref.freshWorld "test.dat" (some [1, 2, 3])).1
      = some (some { Path := "/ipfs/Qm123", Name := "Qm123", LastModified := 0 },
              some (.other "pin: datastore closed")) ∧
    (∃ name, (stringsSplit "/ipfs/Qm123" '/')[2]? = some name ∧
      (Ref.fsPinFails.Put Ref.os Ref.freshWorld "test.dat" (some [1, 2, 3])).1
        = some (some { Path := "/ipfs/Qm123", Name := name, LastModified := 0 },
                some (.other "pin: datastore closed"))) ∧
    (Ref.fsPinFails.Put Ref.os Ref.freshWorld "missing.dat" none).1
      = some (none, some .errNotExist) :=
  ⟨by decide,
   (Put_pin_failure_keeps_handle Ref.os Ref.fsPinFails Ref.freshWorld "test.dat"
      (some [1, 2, 3])).1 (.file [1, 2, 3]) { text := "/ipfs/Qm123" }
      (.other "pin: datastore closed") (by decide) (by decide) (by decide) (by decide),
   (Put_pin_failure_keeps_handle Ref.os Ref.fsPinFails Ref.freshWorld "missing.dat"
      none).2.1 .errNotExist rfl (by decide)⟩

/-- Witness of C7 on the concrete environment: the handle of three bytes put as
a stream. -/
theorem Put_handle_path_and_name_witness :
    '/' ∉ "Qm123".data ∧
    2 < (stringsSplit "/ipfs/Qm123" '/').length ∧
    (stringsSplit "/ipfs/Qm123" '/')[2]? = some "Qm123" ∧
    (Ref.fs.Put Ref.os Ref.freshWorld "test.dat" (some [1, 2, 3])).1
      = some (some { Path := "/ipfs/Qm123", Name := "Qm123", LastModified := 0 }, none) :=
  ⟨by decide,
   Put_handle_path_and_name Ref.os Ref.fs Ref.freshWorld "test.dat" (some [1, 2, 3])
     (.file [1, 2, 3]) { text := "/ipfs/Qm123" } "Qm123" (by decide) (by decide) (by decide)
     (by decide)⟩

/-! ## connectToPeers -/

/-- When `ensureDir` returns no error, either the stat succeeded, on whatever is
at the path, and nothing was created, or the stat reported the path absent and
`MkdirAll` succeeded. -/
theorem ensureDir_ok_cases (os : OS δ) (w : World δ ε) (path : String)
    (h : (ensureDir os w path).1 = none) :
    ((∃ info, os.Stat w.disk path = .ok info) ∧ (ensureDir os w path).2.disk = w.disk) ∨
    (os.Stat w.disk path = .error .errNotExist ∧ (os.MkdirAll w.disk path).1 = none ∧
      (ensureDir os w path).2.disk = (os.MkdirAll w.disk path).2) := by
  unfold ensureDir at h ⊢
  cases hs : os.Stat w.disk path with
  | ok info =>
    left
    simp [hs, errOf, osIsNotExist, World.log]
  | error err =>
    cases err with
    | errNotExist =>
      right
      simp only [hs, errOf, osIsNotExist, World.log, if_true] at h ⊢
      cases hm : (os.MkdirAll w.disk path).1 with
      | none => simp [hm]
      | some e => simp [hm] at h
    | errExist => simp [hs, errOf, osIsNotExist] at h
    | errPermission => simp [hs, errOf, osIsNotExist] at h
    | other msg => simp [hs, errOf, osIsNotExist] at h

/-- Once both `ensureDir` checks return no error, `New` goes on to load the
plugins. -/
theorem New_passes_checks (os : OS δ) (eng : Engine δ ε) (w : World δ Unit) (cfg : Config)
    (h1 : (ensureDir os w cfg.RootPath).1 = none)
    (h2 : (ensureDir os (ensureDir os w cfg.RootPath).2 cfg.TempDir).1 = none) :
    Call.newPluginLoader cfg.RootPath ∈ (New os eng w cfg).2.trace := by
  have hsetup : ∀ v : World δ Unit,
      Call.newPluginLoader cfg.RootPath ∈ (setupPlugins eng v cfg.RootPath).2.trace := by
    intro v
    cases a : eng.NewPluginLoader (v.log (.newPluginLoader cfg.RootPath)).disk cfg.RootPath <;>
      cases b : eng.PluginsInitialize (v.log (.newPluginLoader cfg.RootPath)).disk <;>
      cases c : eng.PluginsInject (v.log (.newPluginLoader cfg.RootPath)).disk <;>
      simp [setupPlugins, a, b, c] <;> simp [World.log]
  have hrepo : ∀ (v : World δ Unit) (c : Call), c ∈ v.trace →
      c ∈ (createRepo eng cfg v cfg.RootPath).2.trace := by
    intro v c hc
    cases a : cfg.DataStore.bind eng.Unmarshal <;>
      cases b : (eng.FsrepoInit v.disk cfg.RootPath cfg.Peers).1 <;>
      simp [createRepo, a, b, World.log, hc]
  have hnode : ∀ (v : World δ Unit) (c : Call), c ∈ v.trace →
      c ∈ (createNode eng v cfg.RootPath).2.trace := by
    intro v c hc
    simp [createNode, World.log, hc]
  unfold New
  simp only [h1, h2]
  repeat' split
  all_goals first
    | exact hsetup _
    | exact hrepo _ _ (hsetup _)
    | exact hnode _ _ (hrepo _ _ (hsetup _))

/-- C10 (the code departs from the claim). On a disk where the configured path
is a regular file, the stat succeeds, so `ensureDir` returns no error without
creating anything: what is at the path afterwards is still the file, not a
directory.  `New`, configured with that path as root and temp, passes both
checks and goes on to load the plugins, for every engine. -/
theorem ensureDir_accepts_regular_file :
    Ref.Disk.at Ref.fileAtRoot.disk "/data/ipfs" = some (.file [1]) ∧
    ensureDir Ref.os Ref.fileAtRoot "/data/ipfs"
      = (none, { Ref.fileAtRoot with trace := [.osStat "/data/ipfs"] }) ∧
    Ref.Disk.at (ensureDir Ref.os Ref.fileAtRoot "/data/ipfs").2.disk "/data/ipfs"
      = some (.file [1]) ∧
    ∀ eng : Engine Ref.Disk Ref.NodeState,
      Call.newPluginLoader "/data/ipfs" ∈ (New Ref.os eng Ref.fileAtRoot Ref.testConfig).2.trace := by
  refine ⟨by decide, by decide, by decide, fun eng => ?_⟩
  exact New_passes_checks Ref.os eng Ref.fileAtRoot Ref.testConfig (by decide) (by decide)

/-! ## Identifiers whose last segment is empty -/

/-- Splitting a sequence that ends in the separator: the segments of what
precedes, and then an empty one. -/
theorem splitChars_append_sep_last (sep : Char) (a : List Char) :
    splitChars sep (a ++ [sep]) = splitChars sep a ++ [[]] := by
  induction a with
  | nil => simp [splitChars]
  | cons c a ih =>
    by_cases hc : c = sep
    · simp [splitChars, hc, ih]
    · obtain ⟨seg, segs, hs, hcons⟩ := splitChars_cons_ne sep c a hc
      rw [hcons, List.cons_append, splitChars, if_neg hc, ih, hs]
      rfl

/-- The last segment of the empty identifier, and of an identifier ending in
`/`, is empty. -/
theorem stringsSplit_getLast_empty (path : String)
    (h : path = "" ∨ ∃ pre : String, path = pre ++ "/") :
    (stringsSplit path '/').getLast? = some "" := by
  rcases h with h | ⟨pre, h⟩
  · subst h
    decide
  · subst h
    have hd : (pre ++ "/").data = pre.data ++ ['/'] := by simp [String.data_append]
    simp only [stringsSplit, hd, splitChars_append_sep_last, List.map_append, List.map_cons,
      List.map_nil, List.getLast?_append, List.getLast?_singleton]
    rfl

/-- Cleaning a non-empty path with a `/` appended gives the cleaned path. -/
theorem filepathClean_append_slash (t : String) (ht : t ≠ "") :
    filepathClean (t ++ "/") = filepathClean t := by
  have hdata : t.data ≠ [] := fun h => ht (String.ext (by simpa using h))
  have hne : t ++ "/" ≠ "" := by
    intro h
    have := congrArg String.data h
    simp [String.data_append] at this
  have hroot : stringsHasPrefix (t ++ "/") "/" = stringsHasPrefix t "/" := by
    cases hd : t.data with
    | nil => exact absurd hd hdata
    | cons c cs => simp [stringsHasPrefix, String.data_append, hd, List.isPrefixOf]
  have hsplit : stringsSplit (t ++ "/") '/' = stringsSplit t '/' ++ [""] := by
    have hd : (t ++ "/").data = t.data ++ ['/'] := by simp [String.data_append]
    simp only [stringsSplit, hd, splitChars_append_sep_last, List.map_append, List.map_cons,
      List.map_nil]
  simp only [filepathClean, if_neg hne, if_neg ht, hroot, hsplit, List.foldl_append,
    List.foldl_cons, List.foldl_nil]
  simp [cleanStep]

/-- Joining a non-empty directory with an empty element gives the cleaned
directory. -/
theorem filepathJoin_empty_elem (t : String) (ht : t ≠ "") :
    filepathJoin [t, ""] = filepathClean t := by
  have hb : (t == "") = false := by simpa using ht
  have hj : stringsJoin [t, ""] "/" = t ++ "/" := by
    apply String.ext
    simp [stringsJoin, String.intercalate, String.intercalate.go, String.data_append]
  simp only [filepathJoin, List.dropWhile, hb, hj]
  exact filepathClean_append_slash t ht

/-- The filename derived from an identifier whose last segment is empty: the
cleaned temp directory, or the empty path when the temp directory is the empty
path. -/
theorem makeFilename_empty_last (fs : Ipfs ε) (path : String)
    (h : (stringsSplit path '/').getLast? = some "") :
    fs.makeFilename path =
      .ok (if fs.config.TempDir = "" then "" else filepathClean fs.config.TempDir) := by
  obtain ⟨last, hlast, hok⟩ := makeFilename_ok fs path
  rw [h] at hlast
  cases hlast
  rw [hok]
  by_cases ht : fs.config.TempDir = ""
  · rw [if_pos ht, ht]
    rfl
  · rw [if_neg ht, filepathJoin_empty_elem _ ht]

/-- C11. For every identifier whose final `/`-segment is empty (the empty
string, or an identifier ending in `/`), `makeFilename` succeeds and returns
the temp directory path itself, cleaned (the empty path when the temp directory
is configured as the empty path), and `Delete` on such an identifier calls
`os.Remove` on exactly that path, before unpinning. -/
theorem Delete_empty_segment_removes_temp_dir (os : OS δ) (fs : Ipfs ε) (w : World δ ε)
    (path : String) (h : path = "" ∨ ∃ pre : String, path = pre ++ "/") :
    (stringsSplit path '/').getLast? = some "" ∧
    fs.makeFilename path =
      .ok (if fs.config.TempDir = "" then "" else filepathClean fs.config.TempDir) ∧
    (fs.Delete os w path).2.trace =
      w.trace ++
        [Call.osRemove (if fs.config.TempDir = "" then "" else filepathClean fs.config.TempDir),
         Call.pinRm (fs.coreAPI.pathNew path)] ∧
    (fs.Delete os w path).2.disk =
      (os.Remove w.disk
        (if fs.config.TempDir = "" then "" else filepathClean fs.config.TempDir)).2 := by
  have hlast := stringsSplit_getLast_empty path h
  have hname := makeFilename_empty_last fs path hlast
  refine ⟨hlast, hname, ?_, ?_⟩
  · simp [Ipfs.Delete, hname, World.log]
  · simp [Ipfs.Delete, hname, World.log]

/-- Witness of C11 on the concrete environment: deleting the identifier `/ipfs/`
derives the temp directory `/data/tmp` as the staged filename and removes that
directory from the disk. -/
theorem Delete_empty_segment_removes_temp_dir_witness :
    Ref.fs.makeFilename "/ipfs/" = .ok "/data/tmp" ∧
    Ref.fs.Delete Ref.os Ref.freshWorld "/ipfs/"
      = (some (.other "not pinned or pinned indirectly"),
         { disk := [], node := Ref.emptyNode,
           trace := [.osRemove "/data/tmp", .pinRm { text := "/ipfs/" }] }) ∧
    ((stringsSplit "/ipfs/" '/').getLast? = some "" ∧
      Ref.fs.makeFilename "/ipfs/" =
        .ok (if Ref.fs.config.TempDir = "" then "" else filepathClean Ref.fs.config.TempDir) ∧
      (Ref.fs.Delete Ref.os Ref.freshWorld "/ipfs/").2.trace =
        Ref.freshWorld.trace ++
          [Call.osRemove
             (if Ref.fs.config.TempDir = "" then "" else filepathClean Ref.fs.config.TempDir),
           Call.pinRm (Ref.fs.coreAPI.pathNew "/ipfs/")] ∧
      (Ref.fs.Delete Ref.os Ref.freshWorld "/ipfs/").2.disk =
        (Ref.os.Remove Ref.freshWorld.disk
          (if Ref.fs.config.TempDir = "" then "" else filepathClean Ref.fs.config.TempDir)).2) :=
  ⟨by decide, by decide,
   Delete_empty_segment_removes_temp_dir Ref.os Ref.fs Ref.freshWorld "/ipfs/"
     (Or.inr ⟨"/ipfs", by decide⟩)⟩

end Oss
